import Mathlib

/-!
# Verification of the aa-sdk-go account-abstraction SDK

A shallow embedding, in Lean 4, of the pure computational core of the
`aa-sdk-go` repository (an ERC-4337 SDK written in Go), together with
theorems settling a list of specification claims about it.

Modelling conventions:
* Go `[]byte`, `common.Address` ([20]byte) and `common.Hash` ([32]byte)
  values are modelled as `List Nat` of byte values.
* Go `*big.Int` is modelled as `Int`; where the code branches on pointer
  nil-ness (the `UserOperation` struct consumed by `ToBody` and
  `PackUserOperation`) the field is modelled as `Option Int`.  A nil
  `*big.Int` that is merely dereferenced (causing a Go panic) is outside
  the embedded domain.
* Go machine integers carry an explicit `% 2^w` wherever overflow or
  truncation can occur (the rotator's `uint32` cursor, byte arithmetic).
* Fallible Go functions returning `(T, error)` are modelled with
  `Except String T` (or `Option`/`Except RotErr` where noted); error
  branches that are unreachable for well-typed inputs (e.g. `abi.Pack`
  over static word types applied to values of the correct Go type,
  which never returns an error) are elided.
-/

namespace AASdk

/-- Go `common.LeftPadBytes`: left-pad `slice` with zero bytes up to length `l`;
returns `slice` unchanged when it is already at least `l` long. -/
def leftPadBytes (slice : List Nat) (l : Nat) : List Nat :=
  if l ≤ slice.length then slice
  else List.replicate (l - slice.length) 0 ++ slice

/-- Go `common.RightPadBytes`: right-pad `slice` with zero bytes up to length `l`. -/
def rightPadBytes (slice : List Nat) (l : Nat) : List Nat :=
  if l ≤ slice.length then slice
  else slice ++ List.replicate (l - slice.length) 0

/-- Fixed-width big-endian bytes of a natural number (width `w`, value mod 256^w). -/
def toBytesBE : Nat → Nat → List Nat
  | 0, _ => []
  | w + 1, n => toBytesBE w (n / 256) ++ [n % 256]

/-- Fuel-driven kernel of `big.Int.Bytes`: minimal big-endian byte string
of a natural number (empty for zero).  The fuel bounds the recursion and
is always instantiated with the number itself. -/
def natBytesBEAux : Nat → Nat → List Nat
  | 0, _ => []
  | fuel + 1, n => if n = 0 then [] else natBytesBEAux fuel (n / 256) ++ [n % 256]

/-- Minimal big-endian byte string of a natural number (empty for zero). -/
def natBytesBE (n : Nat) : List Nat := natBytesBEAux n n

/-- Go `big.Int.Bytes`: the absolute value of the integer as a minimal
big-endian byte slice. -/
def bigIntBytes (v : Int) : List Nat := natBytesBE v.natAbs

/-- Go `big.Int.SetBytes`: interpret a byte string as a big-endian unsigned
integer. -/
def setBytes (bs : List Nat) : Nat := bs.foldl (fun acc b => acc * 256 + b) 0

/-! ## Keccak-256 (legacy Keccak, as used by `golang.org/x/crypto/sha3`'s
`NewLegacyKeccak256` via `go-ethereum/crypto.Keccak256Hash`) -/

/-- 64-bit left rotation. -/
def rotl64 (x n : Nat) : Nat :=
  ((x <<< n) ||| (x >>> (64 - n))) % 18446744073709551616

/-- The 24 Keccak-f[1600] round constants. -/
def keccakRC : List Nat :=
  [1, 32898, 9223372036854808714,
   9223372039002292224, 32907, 2147483649,
   9223372039002292353, 9223372036854808585, 138,
   136, 2147516425, 2147483658,
   2147516555, 9223372036854775947, 9223372036854808713,
   9223372036854808579, 9223372036854808578, 9223372036854775936,
   32778, 9223372039002259466, 9223372039002292353,
   9223372036854808704, 2147483649, 9223372039002292232]

/-- For destination lane `j` (flattened index x+5y), the source lane of the
combined rho-and-pi step. -/
def piSource : List Nat :=
  [0, 6, 12, 18, 24, 3, 9, 10, 16, 22, 1, 7, 13, 19, 20, 4, 5, 11, 17, 23, 2, 8, 14, 15, 21]

/-- For destination lane `j`, the rho rotation amount applied to its source lane. -/
def rhoRotation : List Nat :=
  [0, 44, 43, 21, 14, 28, 20, 3, 45, 61, 1, 6, 25, 8, 18, 27, 36, 10, 15, 56, 62, 55, 39, 41, 2]

/-- Keccak theta step on a 25-lane state. -/
def keccakTheta (A : List Nat) : List Nat :=
  let C := (List.range 5).map fun x =>
    A.getD x 0 ^^^ A.getD (x + 5) 0 ^^^ A.getD (x + 10) 0 ^^^
      A.getD (x + 15) 0 ^^^ A.getD (x + 20) 0
  let D := (List.range 5).map fun x =>
    C.getD ((x + 4) % 5) 0 ^^^ rotl64 (C.getD ((x + 1) % 5) 0) 1
  (List.range 25).map fun i => A.getD i 0 ^^^ D.getD (i % 5) 0

/-- Keccak rho and pi steps, combined. -/
def keccakRhoPi (A : List Nat) : List Nat :=
  (List.range 25).map fun j => rotl64 (A.getD (piSource.getD j 0) 0) (rhoRotation.getD j 0)

/-- Keccak chi step. -/
def keccakChi (B : List Nat) : List Nat :=
  (List.range 25).map fun i =>
    let x := i % 5
    let y := i - x
    B.getD i 0 ^^^
      ((B.getD ((x + 1) % 5 + y) 0 ^^^ 18446744073709551615) &&& B.getD ((x + 2) % 5 + y) 0)

/-- One Keccak-f round: theta, rho+pi, chi, then iota with round constant `rc`. -/
def keccakRound (A : List Nat) (rc : Nat) : List Nat :=
  let B := keccakChi (keccakRhoPi (keccakTheta A))
  B.set 0 (B.getD 0 0 ^^^ rc)

/-- The full Keccak-f[1600] permutation (24 rounds). -/
def keccakF (A : List Nat) : List Nat := keccakRC.foldl keccakRound A

/-- Multi-rate padding 10*1 with leading byte 0x01 (legacy Keccak), to a
multiple of the 136-byte rate. -/
def keccakPad (msg : List Nat) : List Nat :=
  let q := 136 - msg.length % 136
  if q = 1 then msg ++ [0x81]
  else msg ++ 0x01 :: (List.replicate (q - 2) 0 ++ [0x80])

/-- Split a byte string into 136-byte blocks (fuel-driven; the fuel is
always instantiated with the length of the string). -/
def keccakBlocks : Nat → List Nat → List (List Nat)
  | 0, _ => []
  | _, [] => []
  | fuel + 1, l => l.take 136 :: keccakBlocks fuel (l.drop 136)

/-- The little-endian 64-bit lane starting at byte `8*j` of a block. -/
def laneAt (block : List Nat) (j : Nat) : Nat :=
  (List.range 8).foldr (fun b acc => acc * 256 + block.getD (8 * j + b) 0) 0

/-- Absorb one 136-byte block into the state and permute. -/
def keccakAbsorb (st : List Nat) (block : List Nat) : List Nat :=
  keccakF ((List.range 25).map fun i =>
    if i < 17 then st.getD i 0 ^^^ laneAt block i else st.getD i 0)

/-- Keccak-256 of a byte string: 32-byte digest. -/
def keccak256 (msg : List Nat) : List Nat :=
  let padded := keccakPad msg
  let st := (keccakBlocks padded.length padded).foldl keccakAbsorb (List.replicate 25 0)
  (List.range 32).map fun i => (st.getD (i / 8) 0 >>> (8 * (i % 8))) % 256

/-! ## ABI encoding of the static word types used by the SDK

`abi.Arguments.Pack` over static types concatenates one 32-byte word per
argument.  For a well-typed, non-nil argument list of static word types it
never returns an error, so packing is modelled as a total function. -/

/-- ABI word of an unsigned integer argument (`uint256`, and also `uint48`:
go-ethereum's `packNum` emits the full value reduced mod 2^256 regardless of
the declared bit size).  Negative `big.Int`s wrap two's-complement style. -/
def abiWordUint (v : Int) : List Nat :=
  toBytesBE 32 (v % 115792089237316195423570985008687907853269984665640564039457584007913129639936).toNat

/-- ABI word of an `address` argument: the 20 address bytes left-padded to 32. -/
def abiWordAddress (a : List Nat) : List Nat := leftPadBytes a 32

/-- ABI word of a `bytes32` argument: the 32 bytes right-padded to 32
(identity for genuine 32-byte values). -/
def abiWordBytes32 (b : List Nat) : List Nat := rightPadBytes b 32

/-! ## Data model: `entrypoint.PackedUserOperation` -/

/-- The abigen binding struct `entrypoint.PackedUserOperation`.
`Sender` is a 20-byte address, `AccountGasLimits` and `GasFees` are 32-byte
words, the remaining byte fields are arbitrary byte strings. -/
structure PackedUserOperation where
  Sender : List Nat
  Nonce : Int
  InitCode : List Nat
  CallData : List Nat
  AccountGasLimits : List Nat
  PreVerificationGas : Int
  GasFees : List Nat
  PaymasterAndData : List Nat
  Signature : List Nat
  deriving Repr, DecidableEq

/-- Function `HashedUserOp` (utils.go): Keccak-256 of the ABI encoding of the fixed
fields together with the Keccak-256 hashes of the three dynamic fields. -/
def HashedUserOp (userOp : PackedUserOperation) : List Nat :=
  let hashInitCode := keccak256 userOp.InitCode
  let hashCallData := keccak256 userOp.CallData
  let hashPaymasterAndData := keccak256 userOp.PaymasterAndData
  keccak256
    (abiWordAddress userOp.Sender ++
     abiWordUint userOp.Nonce ++
     abiWordBytes32 hashInitCode ++
     abiWordBytes32 hashCallData ++
     abiWordBytes32 userOp.AccountGasLimits ++
     abiWordUint userOp.PreVerificationGas ++
     abiWordBytes32 userOp.GasFees ++
     abiWordBytes32 hashPaymasterAndData)

/-- Function `GetUserOpHash` (utils.go): Keccak-256 of the ABI encoding of
`(HashedUserOp userOp, entrypoint, chainId)`. -/
def GetUserOpHash (packed : PackedUserOperation) (entrypointAddr : List Nat)
    (chainId : Int) : List Nat :=
  keccak256
    (abiWordBytes32 (HashedUserOp packed) ++
     abiWordAddress entrypointAddr ++
     abiWordUint chainId)

/-- Modelled from the spec (claim C1): hash the packed operation's dynamic
fields individually, ABI-encode the fixed fields plus those three
sub-hashes, hash that encoding, ABI-encode the result together with the
entry-point address and the chain id, and hash again. -/
def specUserOpHash (packed : PackedUserOperation) (entrypointAddr : List Nat)
    (chainId : Int) : List Nat :=
  let subHashInit := keccak256 packed.InitCode
  let subHashCall := keccak256 packed.CallData
  let subHashPm := keccak256 packed.PaymasterAndData
  let innerEncoding :=
    abiWordAddress packed.Sender ++ abiWordUint packed.Nonce ++
    abiWordBytes32 subHashInit ++ abiWordBytes32 subHashCall ++
    abiWordBytes32 packed.AccountGasLimits ++ abiWordUint packed.PreVerificationGas ++
    abiWordBytes32 packed.GasFees ++ abiWordBytes32 subHashPm
  let innerHash := keccak256 innerEncoding
  keccak256 (abiWordBytes32 innerHash ++ abiWordAddress entrypointAddr ++ abiWordUint chainId)

/-! ## paymaster.go -/

def PaymasterValidationGasOffset : Nat := 20
def PaymasterPostOpGasOffset : Nat := 36
def PaymasterDataOffset : Nat := 52

/-- Go `common.BytesToAddress`: keep the last 20 bytes, left-padded to 20. -/
def bytesToAddress (b : List Nat) : List Nat :=
  let trimmed := if 20 < b.length then b.drop (b.length - 20) else b
  leftPadBytes trimmed 20

/-- Function `GetPaymasterHash` (paymaster.go): the hash the verifying paymaster
signs.  Fails with a length error when `PaymasterAndData` is shorter than
`PaymasterDataOffset` (52) bytes; otherwise ABI-encodes the operation
fields, the 32-byte gas section of `PaymasterAndData`, the chain id, the
paymaster address and the validity bounds, and hashes the encoding. -/
def GetPaymasterHash (packedUserOp : PackedUserOperation) (chainId : Int)
    (validUntil : Int) (validAfter : Int) : Except String (List Nat) :=
  if packedUserOp.PaymasterAndData.length < PaymasterDataOffset then
    .error "PaymasterAndData too short"
  else
    let paymaster := bytesToAddress (packedUserOp.PaymasterAndData.take PaymasterValidationGasOffset)
    let paymasterValidationGas : Int :=
      setBytes ((packedUserOp.PaymasterAndData.drop PaymasterValidationGasOffset).take
        (PaymasterDataOffset - PaymasterValidationGasOffset))
    .ok (keccak256
      (abiWordAddress packedUserOp.Sender ++
       abiWordUint packedUserOp.Nonce ++
       abiWordBytes32 (keccak256 packedUserOp.InitCode) ++
       abiWordBytes32 (keccak256 packedUserOp.CallData) ++
       abiWordBytes32 packedUserOp.AccountGasLimits ++
       abiWordUint paymasterValidationGas ++
       abiWordUint packedUserOp.PreVerificationGas ++
       abiWordBytes32 packedUserOp.GasFees ++
       abiWordUint chainId ++
       abiWordAddress paymaster ++
       abiWordUint validUntil ++
       abiWordUint validAfter))

/-- Function `PackPaymasterAndData` (paymaster.go): paymaster address (20 bytes),
then the two gas limits left-padded to 16 bytes each, then the payload. -/
def PackPaymasterAndData (paymaster : List Nat) (verGasLimit postOpGasLimit : Int)
    (data : List Nat) : List Nat :=
  let verGasBytes := leftPadBytes (bigIntBytes verGasLimit) 16
  let postOpGasBytes := leftPadBytes (bigIntBytes postOpGasLimit) 16
  paymaster ++ verGasBytes ++ postOpGasBytes ++ data

/-! ## utils.go: `PackInt` and `PackUserOperation` -/

/-- Function `PackInt` (utils.go): copy the two 16-byte left-padded encodings into a
zero-initialised 32-byte `common.Hash` (Go's `copy` writes at most 32
bytes; any excess of the source is dropped).  The Go function panics when
one of the `*big.Int`s is nil; nil pointers are outside the embedded
domain. -/
def PackInt (a b : Int) : List Nat :=
  ((leftPadBytes (bigIntBytes a) 16 ++ leftPadBytes (bigIntBytes b) 16) ++
    List.replicate 32 0).take 32

/-- The SDK-facing `UserOperation` struct (types.go).  `*big.Int` fields
are `Option Int` because the code branches on their nil-ness. -/
structure UserOperation where
  Sender : List Nat := List.replicate 20 0
  Nonce : Option Int := none
  CallData : List Nat := []
  CallGasLimit : Option Int := none
  VerificationGasLimit : Option Int := none
  PreVerificationGas : Option Int := none
  MaxFeePerGas : Option Int := none
  MaxPriorityFeePerGas : Option Int := none
  Signature : List Nat := []
  Paymaster : List Nat := List.replicate 20 0
  PaymasterData : List Nat := []
  PaymasterVerificationGasLimit : Option Int := none
  PaymasterPostOpGasLimit : Option Int := none
  Factory : List Nat := List.replicate 20 0
  FactoryData : List Nat := []
  InitCode : List Nat := []
  deriving Repr, DecidableEq

/-- Function `PackUserOperation` (utils.go).  The Go function dereferences the six
gas/fee `*big.Int` fields (via `PackInt` and `PackPaymasterAndData`) and
copies `Nonce` and `PreVerificationGas` into the packed struct, so the
embedding requires all eight to be present; `none` models the Go panic /
an incompletely populated operation. -/
def PackUserOperation (userOp : UserOperation) : Option PackedUserOperation :=
  match userOp.Nonce, userOp.PreVerificationGas,
      userOp.VerificationGasLimit, userOp.CallGasLimit,
      userOp.MaxPriorityFeePerGas, userOp.MaxFeePerGas,
      userOp.PaymasterVerificationGasLimit, userOp.PaymasterPostOpGasLimit with
  | some nonce, some preVerificationGas, some verificationGasLimit, some callGasLimit,
      some maxPriorityFeePerGas, some maxFeePerGas,
      some paymasterVerificationGasLimit, some paymasterPostOpGasLimit =>
    some
      { Sender := userOp.Sender
        Nonce := nonce
        CallData := userOp.CallData
        AccountGasLimits := PackInt verificationGasLimit callGasLimit
        PreVerificationGas := preVerificationGas
        GasFees := PackInt maxPriorityFeePerGas maxFeePerGas
        PaymasterAndData := PackPaymasterAndData userOp.Paymaster
          paymasterVerificationGasLimit paymasterPostOpGasLimit userOp.PaymasterData
        Signature := userOp.Signature
        InitCode := userOp.InitCode }
  | _, _, _, _, _, _, _, _ => none

/-! ## Hexadecimal text (modelled as lists of ASCII codes) -/

/-- Lower-case hexadecimal digit character code for a nibble. -/
def hexDigitAscii (n : Nat) : Nat := if n < 10 then 48 + n else 87 + n

/-- Go `hex.EncodeToString`: two lower-case digits per byte. -/
def bytesToHexAscii (bs : List Nat) : List Nat :=
  bs.flatMap fun b => [hexDigitAscii (b / 16 % 16), hexDigitAscii (b % 16)]

/-- Fuel-driven kernel of `big.Int.Text(16)` on naturals: minimal
lower-case hexadecimal digits, most significant first. -/
def natHexAsciiAux : Nat → Nat → List Nat
  | 0, _ => []
  | fuel + 1, n => if n = 0 then [] else natHexAsciiAux fuel (n / 16) ++ [hexDigitAscii (n % 16)]

/-- Go `big.Int.Text(16)` for a natural number: minimal digits, `"0"` for zero. -/
def natHexAscii (n : Nat) : List Nat :=
  if n = 0 then [48] else natHexAsciiAux n n

/-- Go `big.Int.Text(16)`: minimal lower-case hexadecimal, with a leading
`'-'` (ASCII 45) for negative values. -/
def intHexAscii (v : Int) : List Nat :=
  if v < 0 then 45 :: natHexAscii v.natAbs else natHexAscii v.natAbs

/-- The lower-case hexadecimal digits (no prefix) of a 20-byte address. -/
def addressHexRaw (a : List Nat) : List Nat := bytesToHexAscii a

/-- EIP-55 checksum casing (`common.Address.Hex`): hash the lower-case hex
digits with Keccak-256 and upper-case every letter whose corresponding
hash nibble exceeds 7. -/
def addressChecksumHex (a : List Nat) : List Nat :=
  let buf := addressHexRaw a
  let hash := keccak256 buf
  (List.range buf.length).map fun i =>
    let c := buf.getD i 0
    let hashByte := hash.getD (i / 2) 0
    let nibble := if i % 2 = 0 then hashByte >>> 4 else hashByte &&& 15
    if 57 < c ∧ 7 < nibble then c - 32 else c

/-- Go `common.Address.Hex()`: `"0x"` followed by the checksummed digits. -/
def addressHex (a : List Nat) : List Nat := 48 :: 120 :: addressChecksumHex a

/-- The zero value of `common.Address`. -/
def zeroAddress : List Nat := List.replicate 20 0

/-- Prefix `"0x"` followed by minimal big-integer hexadecimal text. -/
def hexQuantityValue (v : Int) : List Nat := 48 :: 120 :: intHexAscii v

/-- Prefix `"0x"` followed by the byte-wise hexadecimal encoding. -/
def hexBytesValue (bs : List Nat) : List Nat := 48 :: 120 :: bytesToHexAscii bs

/-- A conditional body entry (`if cond { body[k] = v }` in types.go). -/
def condField (cond : Prop) [Decidable cond] (k : String) (v : List Nat) :
    List (String × List Nat) :=
  if cond then [(k, v)] else []

/-- A body entry guarded by nil-ness of a `*big.Int` field
(`if u.F != nil { body[k] = "0x" + u.F.Text(16) }` in types.go). -/
def optField (o : Option Int) (k : String) : List (String × List Nat) :=
  match o with
  | some n => [(k, hexQuantityValue n)]
  | none => []

/-- Method `UserOperation.ToBody` (types.go): the JSON request body, modelled as
an association list in the insertion order of the Go code (the Go map has
pairwise-distinct keys, so the map content is exactly this entry set). -/
def ToBody (u : UserOperation) : List (String × List Nat) :=
  condField (u.Sender ≠ zeroAddress) "sender" (addressHex u.Sender) ++
  optField u.Nonce "nonce" ++
  condField (0 < u.CallData.length) "callData" (hexBytesValue u.CallData) ++
  optField u.CallGasLimit "callGasLimit" ++
  optField u.VerificationGasLimit "verificationGasLimit" ++
  optField u.PreVerificationGas "preVerificationGas" ++
  optField u.MaxFeePerGas "maxFeePerGas" ++
  optField u.MaxPriorityFeePerGas "maxPriorityFeePerGas" ++
  condField (0 < u.Signature.length) "signature" (hexBytesValue u.Signature) ++
  condField (u.Paymaster ≠ zeroAddress) "paymaster" (addressHex u.Paymaster) ++
  condField (0 < u.PaymasterData.length) "paymasterData" (hexBytesValue u.PaymasterData) ++
  optField u.PaymasterVerificationGasLimit "paymasterVerificationGasLimit" ++
  optField u.PaymasterPostOpGasLimit "paymasterPostOpGasLimit" ++
  condField (u.Factory ≠ zeroAddress) "factory" (addressHex u.Factory) ++
  condField (0 < u.FactoryData.length) "factoryData" (hexBytesValue u.FactoryData)

/-- Returns `true` when the ASCII string contains no upper-case letter. -/
def noUppercaseAscii (l : List Nat) : Bool :=
  l.all fun c => decide (c < 65 ∨ 90 < c)

/-- Returns `true` when the hex text after the `"0x"` prefix carries no leading
zero digit (a bare `"0x0"` is allowed). -/
def noLeadingZeroHex (l : List Nat) : Bool :=
  decide (l.length ≤ 3) || decide (l.getD 2 0 ≠ 48)

/-! ## SignMessage (utils.go) -/

/-- Fuel-driven minimal decimal digits (most significant first). -/
def natDecimalAsciiAux : Nat → Nat → List Nat
  | 0, _ => []
  | fuel + 1, n => if n = 0 then [] else natDecimalAsciiAux fuel (n / 10) ++ [48 + n % 10]

/-- Go `fmt.Sprintf("%d", n)` for a non-negative length: decimal ASCII text. -/
def natDecimalAscii (n : Nat) : List Nat :=
  if n = 0 then [48] else natDecimalAsciiAux n n

/-- The bytes of the constant `MessagePrefix = "\x19Ethereum Signed Message:\n"`. -/
def MessagePrefixData : List Nat :=
  [0x19, 69, 116, 104, 101, 114, 101, 117, 109, 32, 83, 105, 103, 110, 101, 100,
   32, 77, 101, 115, 115, 97, 103, 101, 58, 10]

/-- Go `crypto.RecoveryIDOffset` in go-ethereum. -/
def RecoveryIDOffset : Nat := 64

/-- Function `SignMessage` (utils.go), parameterised by the external signing
primitive `crypto.Sign` (secp256k1; on success it returns a 65-byte
signature whose byte 64 is the recovery id).  Builds
`Sprintf("%s%d", MessagePrefix, len(message))`, appends the message,
hashes with Keccak-256, signs the hash, and adds 27 to the recovery-id
byte (Go byte arithmetic, i.e. mod 256).  The Go code would panic if the
primitive returned fewer than 65 bytes; `List.set` is then a no-op
instead, and theorems assume the documented 65-byte output. -/
def SignMessage (sign : List Nat → Except String (List Nat))
    (message : List Nat) : Except String (List Nat) :=
  let prefixedMessage := MessagePrefixData ++ natDecimalAscii message.length
  let allBytes := prefixedMessage ++ message
  let hash := keccak256 allBytes
  match sign hash with
  | .error e => .error ("failed to sign message: " ++ e)
  | .ok signature =>
      .ok (signature.set RecoveryIDOffset ((signature.getD RecoveryIDOffset 0 + 27) % 256))

/-- Modelled from the spec (claim C5): on success, the returned 65-byte
signature is the raw signature of the primitive with the recovery-id byte
(index 64) increased by 27 (byte arithmetic); on failure the primitive's
error is surfaced, wrapped in the signing error message. -/
def bumpRecoverySpec (r : Except String (List Nat)) : Except String (List Nat) :=
  match r with
  | .ok s => .ok (s.take 64 ++ [(s.getD 64 0 + 27) % 256])
  | .error e => .error ("failed to sign message: " ++ e)

/-! ## RoundRobinSignerProvider (signer rotation) -/

/-- Struct `RoundRobinSignerProvider`: a list of signers and an `atomic.Uint32`
cursor.  The key type is abstract. -/
structure RoundRobinSignerProvider (K : Type) where
  signers : List K
  index : Nat
  deriving Repr, DecidableEq

/-- Go runtime failures a `Next` call can hit: the `% uint32(len)` divides
by zero when the length is a positive multiple of 2^32, and slice
indexing panics out of range. -/
inductive RotErr
  | divByZero
  | outOfRange
  deriving Repr, DecidableEq

/-- Constructor `NewRoundRobinSignerProvider`: initial cursor 0. -/
def NewRoundRobinSignerProvider {K : Type} (signers : List K) : RoundRobinSignerProvider K :=
  ⟨signers, 0⟩

/-- Method `Next`: with no signers return the no-key signal (Go `nil`); otherwise
load the cursor, store `(current+1) % uint32(len(signers))` (uint32
arithmetic, hence the `% 2^32`; storing panics when `uint32(len)` is 0),
and return `signers[current]`. -/
def RoundRobinSignerProvider.Next {K : Type} (p : RoundRobinSignerProvider K) :
    Except RotErr (Option K × RoundRobinSignerProvider K) :=
  if p.signers.length = 0 then .ok (none, p)
  else
    let current := p.index
    let m := p.signers.length % 4294967296
    if m = 0 then .error .divByZero
    else
      match p.signers.get? current with
      | some k => .ok (some k, ⟨p.signers, ((current + 1) % 4294967296) % m⟩)
      | none => .error .outOfRange

/-- Method `Add`: append a signer.  The Go method always returns a nil error. -/
def RoundRobinSignerProvider.Add {K : Type} (r : RoundRobinSignerProvider K) (signer : K) :
    RoundRobinSignerProvider K :=
  ⟨r.signers ++ [signer], r.index⟩

/-- Method `Count`: the number of signers. -/
def RoundRobinSignerProvider.Count {K : Type} (r : RoundRobinSignerProvider K) : Nat :=
  r.signers.length

/-- A single operation of the rotator step relation. -/
inductive RotOp (K : Type)
  | next
  | add (signer : K)
  deriving Repr, DecidableEq

/-- Run a sequence of rotator operations from a state; a Go panic inside
`Next` aborts the run with the corresponding error. -/
def runOps {K : Type} (p : RoundRobinSignerProvider K) :
    List (RotOp K) → Except RotErr (RoundRobinSignerProvider K)
  | [] => .ok p
  | .next :: rest => (p.Next).bind fun x => runOps x.2 rest
  | .add k :: rest => runOps (p.Add k) rest

/-- The number of `add` operations in a sequence. -/
def countAdds {K : Type} : List (RotOp K) → Nat
  | [] => 0
  | .next :: rest => countAdds rest
  | .add _ :: rest => 1 + countAdds rest

/-- The cursor invariant of a rotator state: the cursor is in range
whenever keys exist, and still 0 on an empty rotator. -/
def cursorInvariant {K : Type} (p : RoundRobinSignerProvider K) : Prop :=
  p.index < p.signers.length ∨ (p.signers.length = 0 ∧ p.index = 0)

/-- A binder-free description of the possible outcomes of one `Next`
call: a returned key is currently in the list, the no-key signal occurs
only on an empty rotator, and the only possible runtime failure is the
division by zero arising when the key count is a positive multiple of
2^32 (never an out-of-range access). -/
def NextSafe {K : Type} (q : RoundRobinSignerProvider K) : Prop :=
  match q.Next with
  | .ok (some k, _) => k ∈ q.signers
  | .ok (none, _) => q.signers = []
  | .error e =>
      e = RotErr.divByZero ∧ q.signers.length % 4294967296 = 0 ∧ q.signers ≠ []

/-- The rotator state after `i` single-threaded `Next` calls. -/
def iterState {K : Type} (p : RoundRobinSignerProvider K) :
    Nat → Except RotErr (RoundRobinSignerProvider K)
  | 0 => .ok p
  | i + 1 => (iterState p i).bind fun q => q.Next.map Prod.snd

/-- The value returned by the `i`-th (0-based) single-threaded `Next` call. -/
def ithNext {K : Type} (p : RoundRobinSignerProvider K) (i : Nat) : Except RotErr (Option K) :=
  (iterState p i).bind fun q => q.Next.map Prod.fst

/-! ## Bundler JSON-RPC error decoding (bundler.go) -/

/-- The JSON shapes relevant to decoding a JSON-RPC `error` field: a bare
string, an object carrying optional `code`/`message` members, or `null`. -/
inductive JsonValue
  | str (s : String)
  | obj (code : Option Int) (message : Option String)
  | null
  deriving Repr, DecidableEq

/-- The typed error shape `errorResponse` (bundler.go). -/
structure errorResponse where
  Code : Option Int
  Message : Option String
  deriving Repr, DecidableEq

/-- Method `errorResponse.UnmarshalJSON` (bundler.go): first try to decode the
value as a string; on success with a non-empty string, store it as the
message with no code.  Otherwise decode as a `code`/`message` object
(Go's `json.Unmarshal` of a string into a struct fails, so the empty
string falls through to a decode error; `null` is a successful no-op at
both stages). -/
def errorResponse.UnmarshalJSON : JsonValue → Except String errorResponse
  | .str s =>
      if s ≠ "" then .ok ⟨none, some s⟩
      else .error "json: cannot unmarshal string into Go value of type Alias"
  | .obj code message => .ok ⟨code, message⟩
  | .null => .ok ⟨none, none⟩

/-! ## Supporting lemmas -/

theorem setBytes_append_singleton (l : List Nat) (b : Nat) :
    setBytes (l ++ [b]) = setBytes l * 256 + b := by
  simp [setBytes, List.foldl_append]

theorem setBytes_replicate_zero (k : Nat) (l : List Nat) :
    setBytes (List.replicate k 0 ++ l) = setBytes l := by
  induction k with
  | zero => simp
  | succ k ih =>
      simpa only [List.replicate_succ, List.cons_append, setBytes, List.foldl_cons,
        Nat.mul_zero, Nat.zero_mul, Nat.add_zero] using ih

theorem natBytesBEAux_setBytes :
    ∀ fuel n : Nat, n ≤ fuel → setBytes (natBytesBEAux fuel n) = n := by
  intro fuel
  induction fuel with
  | zero =>
      intro n h
      have hn : n = 0 := by omega
      subst hn; rfl
  | succ fuel ih =>
      intro n h
      by_cases h0 : n = 0
      · subst h0; simp [natBytesBEAux, setBytes]
      · have hlt : n / 256 < n := Nat.div_lt_self (Nat.pos_of_ne_zero h0) (by norm_num)
        rw [natBytesBEAux, if_neg h0, setBytes_append_singleton,
          ih (n / 256) (by omega)]
        omega

theorem natBytesBE_setBytes (n : Nat) : setBytes (natBytesBE n) = n :=
  natBytesBEAux_setBytes n n Nat.le.refl

theorem natBytesBEAux_length :
    ∀ fuel n w : Nat, n ≤ fuel → n < 256 ^ w → (natBytesBEAux fuel n).length ≤ w := by
  intro fuel
  induction fuel with
  | zero =>
      intro n w h _
      have hn : n = 0 := by omega
      subst hn; simp [natBytesBEAux]
  | succ fuel ih =>
      intro n w h hw
      by_cases h0 : n = 0
      · subst h0; simp [natBytesBEAux]
      · rw [natBytesBEAux, if_neg h0]
        cases w with
        | zero =>
            exfalso
            have : n < 1 := by simpa using hw
            omega
        | succ w =>
            have hdiv : n / 256 < 256 ^ w := by
              rw [pow_succ] at hw
              exact Nat.div_lt_of_lt_mul (by omega)
            have hlt : n / 256 < n := Nat.div_lt_self (Nat.pos_of_ne_zero h0) (by norm_num)
            have := ih (n / 256) w (by omega) hdiv
            simp only [List.length_append, List.length_cons, List.length_nil]
            omega

theorem natBytesBE_length {n w : Nat} (h : n < 256 ^ w) : (natBytesBE n).length ≤ w :=
  natBytesBEAux_length n n w Nat.le.refl h

theorem leftPadBytes_length_of_le {l : List Nat} {n : Nat} (h : l.length ≤ n) :
    (leftPadBytes l n).length = n := by
  unfold leftPadBytes
  by_cases h2 : n ≤ l.length
  · rw [if_pos h2]; omega
  · rw [if_neg h2]
    simp only [List.length_append, List.length_replicate]
    omega

theorem setBytes_leftPadBytes (l : List Nat) (n : Nat) :
    setBytes (leftPadBytes l n) = setBytes l := by
  unfold leftPadBytes
  split
  · rfl
  · exact setBytes_replicate_zero _ _

/-- The 16-byte padded encoding of a `big.Int` below 2^128 in absolute
value has length exactly 16 and decodes back to the absolute value. -/
theorem pad16_spec {v : Int} (h : v.natAbs < 340282366920938463463374607431768211456) :
    (leftPadBytes (bigIntBytes v) 16).length = 16 ∧
      setBytes (leftPadBytes (bigIntBytes v) 16) = v.natAbs := by
  have h256 : v.natAbs < 256 ^ 16 := by norm_num at h ⊢; exact h
  refine ⟨leftPadBytes_length_of_le (natBytesBE_length h256), ?_⟩
  rw [setBytes_leftPadBytes, bigIntBytes, natBytesBE_setBytes]

/-- Every Keccak-256 digest has 32 bytes. -/
theorem keccak256_length (msg : List Nat) : (keccak256 msg).length = 32 := by
  simp [keccak256]

/-- Sanity anchor: the public Keccak-256 test vector for the empty string. -/
theorem keccak256_empty_vector :
    keccak256 [] =
      [0xc5, 0xd2, 0x46, 0x01, 0x86, 0xf7, 0x23, 0x3c, 0x92, 0x7e, 0x7d, 0xb2,
       0xdc, 0xc7, 0x03, 0xc0, 0xe5, 0x00, 0xb6, 0x53, 0xca, 0x82, 0x27, 0x3b,
       0x7b, 0xfa, 0xd8, 0x04, 0x5d, 0x85, 0xa4, 0x70] := by
  set_option maxRecDepth 100000 in decide

/-- Sanity anchor: the public Keccak-256 test vector for `"abc"`. -/
theorem keccak256_abc_vector :
    keccak256 [97, 98, 99] =
      [0x4e, 0x03, 0x65, 0x7a, 0xea, 0x45, 0xa9, 0x4f, 0xc7, 0xd4, 0x7b, 0xa8,
       0x26, 0xc8, 0xd6, 0x67, 0xc0, 0xd1, 0xe6, 0xe3, 0x3a, 0x64, 0xa0, 0x36,
       0xec, 0x44, 0xf5, 0x8f, 0xa1, 0x2d, 0x6c, 0x45] := by
  set_option maxRecDepth 100000 in decide

/-! ## Claim theorems -/

/-- C1: `GetUserOpHash` computes exactly the spec's pipeline — hash the
three dynamic fields individually, ABI-encode the fixed fields with those
sub-hashes, hash, ABI-encode the result with the entry-point address and
chain id, and hash again — yielding a 32-byte value; as a pure function
of the packed operation, the entry-point address and the chain id, it is
deterministic in those inputs by construction. -/
theorem getUserOpHash_spec (packed : PackedUserOperation) (entrypointAddr : List Nat)
    (chainId : Int) :
    GetUserOpHash packed entrypointAddr chainId = specUserOpHash packed entrypointAddr chainId ∧
      (GetUserOpHash packed entrypointAddr chainId).length = 32 :=
  ⟨rfl, keccak256_length _⟩

/-- C2: `GetPaymasterHash` fails with the length error exactly when
`PaymasterAndData` is shorter than 52 bytes, and succeeds exactly when it
is at least 52 bytes long (for every chain id and validity bound, 48-bit
or otherwise); in particular 51 bytes fail and 52 bytes succeed. -/
theorem getPaymasterHash_length_check (packedUserOp : PackedUserOperation)
    (chainId validUntil validAfter : Int) :
    ((GetPaymasterHash packedUserOp chainId validUntil validAfter =
        .error "PaymasterAndData too short") ↔
      packedUserOp.PaymasterAndData.length < 52) ∧
    ((GetPaymasterHash packedUserOp chainId validUntil validAfter).isOk = true ↔
      52 ≤ packedUserOp.PaymasterAndData.length) := by
  unfold GetPaymasterHash PaymasterDataOffset
  constructor
  · constructor
    · intro h
      by_contra hlen
      rw [if_neg hlen] at h
      exact Except.noConfusion h
    · intro h
      rw [if_pos h]
  · constructor
    · intro h
      by_contra hlen
      rw [if_pos (by omega)] at h
      simp [Except.isOk, Except.toBool] at h
    · intro h
      rw [if_neg (by omega)]
      rfl

theorem leftPadBytes_length_ge (l : List Nat) (n : Nat) : n ≤ (leftPadBytes l n).length := by
  unfold leftPadBytes
  by_cases h2 : n ≤ l.length
  · rw [if_pos h2]; omega
  · rw [if_neg h2]
    simp only [List.length_append, List.length_replicate]
    omega

/-- C3: the `PackPaymasterAndData` codec round-trips: the first 20 bytes
are the paymaster address, bytes [20:36] and [36:52] decode (as
left-padded big-endian unsigned integers) to the two gas limits, and the
tail is the payload, for non-negative gas values below 2^128. -/
theorem packPaymasterAndData_roundTrip (paymaster : List Nat)
    (verGasLimit postOpGasLimit : Int) (data : List Nat)
    (hLen : paymaster.length = 20)
    (hv0 : 0 ≤ verGasLimit) (hv1 : verGasLimit < 340282366920938463463374607431768211456)
    (hp0 : 0 ≤ postOpGasLimit) (hp1 : postOpGasLimit < 340282366920938463463374607431768211456) :
    (PackPaymasterAndData paymaster verGasLimit postOpGasLimit data).take 20 = paymaster ∧
    (setBytes (((PackPaymasterAndData paymaster verGasLimit postOpGasLimit data).drop 20).take 16) : Int)
      = verGasLimit ∧
    (setBytes (((PackPaymasterAndData paymaster verGasLimit postOpGasLimit data).drop 36).take 16) : Int)
      = postOpGasLimit ∧
    (PackPaymasterAndData paymaster verGasLimit postOpGasLimit data).drop 52 = data := by
  obtain ⟨hvl, hvs⟩ := pad16_spec (v := verGasLimit) (by omega)
  obtain ⟨hpl, hps⟩ := pad16_spec (v := postOpGasLimit) (by omega)
  have hE : PackPaymasterAndData paymaster verGasLimit postOpGasLimit data =
      paymaster ++ (leftPadBytes (bigIntBytes verGasLimit) 16 ++
        (leftPadBytes (bigIntBytes postOpGasLimit) 16 ++ data)) := by
    simp [PackPaymasterAndData]
  refine ⟨?_, ?_, ?_, ?_⟩
  · rw [hE, List.take_left' hLen]
  · rw [hE, List.drop_left' hLen, List.take_left' hvl, hvs, Int.natAbs_of_nonneg hv0]
  · have h36 : (paymaster ++ leftPadBytes (bigIntBytes verGasLimit) 16).length = 36 := by
      simp only [List.length_append]; omega
    rw [hE, ← List.append_assoc, List.drop_left' h36, List.take_left' hpl, hps,
      Int.natAbs_of_nonneg hp0]
  · have h52 : ((paymaster ++ leftPadBytes (bigIntBytes verGasLimit) 16) ++
        leftPadBytes (bigIntBytes postOpGasLimit) 16).length = 52 := by
      simp only [List.length_append]; omega
    rw [hE, ← List.append_assoc, ← List.append_assoc, List.drop_left' h52]

theorem packPaymasterAndData_roundTrip_witness :
    (PackPaymasterAndData (List.replicate 20 7) 340282366920938463463374607431768211455 0
        [1, 2, 3]).take 20 = List.replicate 20 7 ∧
    (setBytes (((PackPaymasterAndData (List.replicate 20 7)
        340282366920938463463374607431768211455 0 [1, 2, 3]).drop 20).take 16) : Int)
      = 340282366920938463463374607431768211455 ∧
    (setBytes (((PackPaymasterAndData (List.replicate 20 7)
        340282366920938463463374607431768211455 0 [1, 2, 3]).drop 36).take 16) : Int) = 0 ∧
    (PackPaymasterAndData (List.replicate 20 7) 340282366920938463463374607431768211455 0
        [1, 2, 3]).drop 52 = [1, 2, 3] :=
  packPaymasterAndData_roundTrip (List.replicate 20 7)
    340282366920938463463374607431768211455 0 [1, 2, 3]
    (by decide) (by decide) (by decide) (by decide) (by decide)

/-- C4: `PackInt a b` is a 32-byte word whose halves are the 16-byte
left-padded big-endian encodings of `a` and `b`, for non-negative values
fitting in 128 bits. -/
theorem packInt_spec (a b : Int)
    (ha0 : 0 ≤ a) (ha1 : a < 340282366920938463463374607431768211456)
    (hb0 : 0 ≤ b) (hb1 : b < 340282366920938463463374607431768211456) :
    (PackInt a b).length = 32 ∧
    (PackInt a b).take 16 = leftPadBytes (bigIntBytes a) 16 ∧
    (PackInt a b).drop 16 = leftPadBytes (bigIntBytes b) 16 := by
  obtain ⟨hal, _⟩ := pad16_spec (v := a) (by omega)
  obtain ⟨hbl, _⟩ := pad16_spec (v := b) (by omega)
  have h32 : (leftPadBytes (bigIntBytes a) 16 ++ leftPadBytes (bigIntBytes b) 16).length = 32 := by
    simp only [List.length_append]; omega
  have hE : PackInt a b = leftPadBytes (bigIntBytes a) 16 ++ leftPadBytes (bigIntBytes b) 16 := by
    unfold PackInt
    rw [List.take_left' (by simp only [List.length_append, h32])]
  rw [hE]
  exact ⟨h32, List.take_left' hal, List.drop_left' hal⟩

theorem packInt_spec_witness :
    ((PackInt 0 0).length = 32 ∧
      (PackInt 0 0).take 16 = leftPadBytes (bigIntBytes 0) 16 ∧
      (PackInt 0 0).drop 16 = leftPadBytes (bigIntBytes 0) 16) ∧
    ((PackInt 340282366920938463463374607431768211455 340282366920938463463374607431768211455).length = 32 ∧
      (PackInt 340282366920938463463374607431768211455
          340282366920938463463374607431768211455).take 16 =
        leftPadBytes (bigIntBytes 340282366920938463463374607431768211455) 16 ∧
      (PackInt 340282366920938463463374607431768211455
          340282366920938463463374607431768211455).drop 16 =
        leftPadBytes (bigIntBytes 340282366920938463463374607431768211455) 16) :=
  ⟨packInt_spec 0 0 (by decide) (by decide) (by decide) (by decide),
   packInt_spec 340282366920938463463374607431768211455 340282366920938463463374607431768211455
     (by decide) (by decide) (by decide) (by decide)⟩

/-- C10 (amended): for a fully populated user operation whose paymaster
is a 20-byte address, a successful `PackUserOperation` always yields a
`PaymasterAndData` of at least 52 bytes (so `GetPaymasterHash`'s
minimum-length precondition holds), and of exactly `52 + len(PaymasterData)`
bytes when both paymaster gas limits are below 2^128 in absolute value.
The C10 claim as frozen omits the 2^128 bound and is refuted by
`packUserOperation_paymasterAndData_cex`. -/
theorem packUserOperation_paymasterAndData_length (u : UserOperation)
    (packed : PackedUserOperation) (pvgl ppogl : Int)
    (h : PackUserOperation u = some packed)
    (hPm : u.Paymaster.length = 20)
    (hP : u.PaymasterVerificationGasLimit = some pvgl)
    (hQ : u.PaymasterPostOpGasLimit = some ppogl) :
    52 ≤ packed.PaymasterAndData.length ∧
    (pvgl.natAbs < 340282366920938463463374607431768211456 →
      ppogl.natAbs < 340282366920938463463374607431768211456 →
      packed.PaymasterAndData.length = 52 + u.PaymasterData.length) := by
  unfold PackUserOperation at h
  split at h
  case _ nonce pre vgl cgl mpf mf pv pq hNonce hPre hVgl hCgl hMpf hMf hPv hPq =>
    rw [hP] at hPv
    rw [hQ] at hPq
    cases hPv
    cases hPq
    cases h
    constructor
    · simp only [PackPaymasterAndData, List.length_append]
      have g1 := leftPadBytes_length_ge (bigIntBytes pvgl) 16
      have g2 := leftPadBytes_length_ge (bigIntBytes ppogl) 16
      omega
    · intro h1 h2
      obtain ⟨l1, _⟩ := pad16_spec (v := pvgl) h1
      obtain ⟨l2, _⟩ := pad16_spec (v := ppogl) h2
      simp only [PackPaymasterAndData, List.length_append]
      omega
  case _ =>
    exact absurd h (by simp)

theorem packUserOperation_paymasterAndData_length_witness :
    52 ≤ (PackPaymasterAndData (List.replicate 20 0) 17 19 [9]).length ∧
    ((17 : Int).natAbs < 340282366920938463463374607431768211456 →
      (19 : Int).natAbs < 340282366920938463463374607431768211456 →
      (PackPaymasterAndData (List.replicate 20 0) 17 19 [9]).length = 52 + [9].length) :=
  packUserOperation_paymasterAndData_length
    { Nonce := some 5, CallGasLimit := some 3, VerificationGasLimit := some 2,
      PreVerificationGas := some 7, MaxFeePerGas := some 13, MaxPriorityFeePerGas := some 11,
      PaymasterVerificationGasLimit := some 17, PaymasterPostOpGasLimit := some 19,
      PaymasterData := [9] }
    { Sender := List.replicate 20 0, Nonce := 5, InitCode := [], CallData := [],
      AccountGasLimits := PackInt 2 3, PreVerificationGas := 7, GasFees := PackInt 11 13,
      PaymasterAndData := PackPaymasterAndData (List.replicate 20 0) 17 19 [9],
      Signature := [] }
    17 19 rfl (by decide) rfl rfl

/-- C10 counterexample: with `PaymasterVerificationGasLimit = 2^128` (and
every other big-integer field populated with 0), `PackUserOperation`
produces a `PaymasterAndData` of 53 bytes, not `52 + len(PaymasterData) = 52`:
the 17-byte big-endian encoding of 2^128 defeats the 16-byte left-padding. -/
theorem packUserOperation_paymasterAndData_cex :
    ((PackUserOperation
      { Nonce := some 0, CallGasLimit := some 0, VerificationGasLimit := some 0,
        PreVerificationGas := some 0, MaxFeePerGas := some 0, MaxPriorityFeePerGas := some 0,
        PaymasterVerificationGasLimit := some 340282366920938463463374607431768211456,
        PaymasterPostOpGasLimit := some 0 }).map fun p => p.PaymasterAndData.length)
      = some 53 := by decide

/-- C5: `SignMessage` hashes the concatenation of the fixed prefix
`"\x19Ethereum Signed Message:\n"`, the decimal text of the message
length, and the message; hands that hash to the signing primitive; and
returns the raw signature with its recovery-id byte increased by 27 —
or the primitive's error, exactly when the primitive fails.  The
hypothesis records the documented 65-byte output of `crypto.Sign`
(violating it makes the Go code panic). -/
theorem signMessage_spec (sign : List Nat → Except String (List Nat)) (message : List Nat)
    (h65 : ∀ s,
      sign (keccak256 (MessagePrefixData ++ natDecimalAscii message.length ++ message)) = .ok s →
      s.length = 65) :
    SignMessage sign message =
      bumpRecoverySpec
        (sign (keccak256 (MessagePrefixData ++ natDecimalAscii message.length ++ message))) := by
  simp only [SignMessage, bumpRecoverySpec, RecoveryIDOffset]
  cases hs : sign (keccak256 (MessagePrefixData ++ natDecimalAscii message.length ++ message)) with
  | error e => rfl
  | ok s =>
      have hl := h65 s hs
      have hdrop : s.drop 65 = [] := List.drop_eq_nil_of_le (by omega)
      dsimp only
      rw [List.set_eq_take_cons_drop _ (show 64 < s.length by omega), hdrop]

theorem signMessage_spec_witness :
    SignMessage (fun _ => Except.ok (List.replicate 64 2 ++ [1])) [104, 105] =
      Except.ok (List.replicate 64 2 ++ [28]) := by
  have h := signMessage_spec (fun _ => Except.ok (List.replicate 64 2 ++ [1])) [104, 105]
    (fun s hs => by
      have : List.replicate 64 2 ++ [1] = s := by
        simpa using hs
      rw [← this]
      decide)
  rw [h]
  simp only [bumpRecoverySpec]
  exact congrArg Except.ok (by decide)

/-- C8 (amended): a bare non-empty JSON string decodes to a message-only
error (no code), and a `code`/`message` object populates both fields; the
empty bare string, however, is rejected by the decoder (see
`unmarshalErrorResponse_cex`). -/
theorem unmarshalErrorResponse_shapes (s : String) (code : Option Int)
    (message : Option String) (hs : s ≠ "") :
    errorResponse.UnmarshalJSON (JsonValue.str s) =
      .ok { Code := none, Message := some s } ∧
    errorResponse.UnmarshalJSON (JsonValue.obj code message) =
      .ok { Code := code, Message := message } := by
  constructor
  · simp only [errorResponse.UnmarshalJSON]
    rw [if_pos hs]
  · rfl

theorem unmarshalErrorResponse_shapes_witness :
    errorResponse.UnmarshalJSON (JsonValue.str "boom") =
      .ok { Code := none, Message := some "boom" } ∧
    errorResponse.UnmarshalJSON (JsonValue.obj (some (-32000)) (some "oops")) =
      .ok { Code := some (-32000), Message := some "oops" } :=
  unmarshalErrorResponse_shapes "boom" (some (-32000)) (some "oops") (by decide)

/-- C8 counterexample: decoding the bare empty JSON string `""` as an
`error` field fails (the first unmarshal succeeds but yields an empty
string, so the decoder falls through to the object decoder, which cannot
unmarshal a string), so not every bare JSON string is accepted. -/
theorem unmarshalErrorResponse_cex :
    (errorResponse.UnmarshalJSON (JsonValue.str "")).isOk = false := by decide

/-- One in-range `Next` call on a rotator whose key count is below 2^32:
it returns the key at the cursor and advances the cursor cyclically. -/
theorem next_ok {K : Type} (keys : List K) (j : Nat) (h0 : keys.length ≠ 0)
    (h32 : keys.length < 4294967296) (hj : j < keys.length) :
    RoundRobinSignerProvider.Next ⟨keys, j⟩ =
      .ok (keys.get? j, ⟨keys, (j + 1) % keys.length⟩) := by
  simp only [RoundRobinSignerProvider.Next]
  rw [if_neg h0, Nat.mod_eq_of_lt h32, if_neg h0]
  cases hk : keys.get? j with
  | none =>
      exfalso
      have := List.get?_eq_none.mp hk
      omega
  | some k =>
      dsimp only
      rw [Nat.mod_eq_of_lt (show j + 1 < 4294967296 by omega)]

/-- After `i` single-threaded `Next` calls on a fresh rotator with `N`
keys (`0 < N < 2^32`), the cursor sits at `i % N`. -/
theorem iterState_cycle {K : Type} (keys : List K) (h0 : keys.length ≠ 0)
    (h32 : keys.length < 4294967296) (i : Nat) :
    iterState (NewRoundRobinSignerProvider keys) i = .ok ⟨keys, i % keys.length⟩ := by
  induction i with
  | zero =>
      simp [iterState, NewRoundRobinSignerProvider]
  | succ i ih =>
      rw [iterState, ih]
      have hmod : (i % keys.length + 1) % keys.length = (i + 1) % keys.length := by
        conv_rhs => rw [Nat.add_mod]
        rcases Nat.lt_or_ge 1 keys.length with hl | hl
        · rw [Nat.mod_eq_of_lt hl]
        · have h1 : keys.length = 1 := by omega
          simp [h1]
      dsimp only [Except.bind]
      rw [next_ok keys (i % keys.length) h0 h32 (Nat.mod_lt _ (by omega))]
      dsimp only [Except.map]
      rw [hmod]

/-- C6 (amended): on a rotator freshly built from `N` keys with
`1 ≤ N < 2^32`, the `i`-th single-threaded `Next` call returns exactly
the key at position `i % N` — hence 2N calls return each position's key
twice, in cyclic order starting from the first key.  The frozen claim's
unbounded `N ≥ 1` fails at `N ≥ 2^32` because the Go code reduces the
length to `uint32` (see `roundRobin_next_cyclic_cex`). -/
theorem roundRobin_next_cyclic {K : Type} (keys : List K)
    (h1 : 0 < keys.length) (h2 : keys.length < 4294967296) (i : Nat) :
    ithNext (NewRoundRobinSignerProvider keys) i = .ok (keys.get? (i % keys.length)) ∧
    (keys.get? (i % keys.length)).isSome = true := by
  have h0 : keys.length ≠ 0 := by omega
  constructor
  · rw [ithNext, iterState_cycle keys h0 h2 i]
    dsimp only [Except.bind]
    rw [next_ok keys (i % keys.length) h0 h2 (Nat.mod_lt _ h1)]
    rfl
  · cases hk : keys.get? (i % keys.length) with
    | none =>
        exfalso
        have := List.get?_eq_none.mp hk
        have := Nat.mod_lt i h1
        omega
    | some k => rfl

theorem roundRobin_next_cyclic_witness :
    ithNext (NewRoundRobinSignerProvider [3, 4]) 5 =
      .ok (([3, 4] : List Nat).get? (5 % ([3, 4] : List Nat).length)) ∧
    (([3, 4] : List Nat).get? (5 % ([3, 4] : List Nat).length)).isSome = true :=
  roundRobin_next_cyclic [3, 4] (by decide) (by decide) 5

theorem iterState_zero {K : Type} (p : RoundRobinSignerProvider K) :
    iterState p 0 = .ok p := rfl

theorem iterState_succ {K : Type} (p : RoundRobinSignerProvider K) (i : Nat) :
    iterState p (i + 1) = (iterState p i).bind fun q => q.Next.map Prod.snd := rfl

theorem ithNext_def {K : Type} (p : RoundRobinSignerProvider K) (i : Nat) :
    ithNext p i = (iterState p i).bind fun q => q.Next.map Prod.fst := rfl

theorem new_def {K : Type} (signers : List K) :
    NewRoundRobinSignerProvider signers = ⟨signers, 0⟩ := rfl

theorem bind_next_snd {K : Type} (p : RoundRobinSignerProvider K) :
    (Except.ok (ε := RotErr) p).bind (fun q => q.Next.map Prod.snd) =
      p.Next.map Prod.snd := rfl

theorem bind_next_fst {K : Type} (p : RoundRobinSignerProvider K) :
    (Except.ok (ε := RotErr) p).bind (fun q => q.Next.map Prod.fst) =
      p.Next.map Prod.fst := rfl

theorem except_map_ok {ε α β : Type} (f : α → β) (x : α) :
    (Except.ok (ε := ε) x).map f = Except.ok (f x) := rfl

/-- Method `Next` on a non-empty rotator whose truncated length `uint32(len)` is
the non-zero `m2`: returns the key at the cursor and advances modulo `m2`. -/
theorem next_eq_of_get {K : Type} (keys : List K) (j m2 : Nat) (k : K)
    (h0 : ¬(keys.length = 0)) (hm : keys.length % 4294967296 = m2) (hm0 : ¬(m2 = 0))
    (hk : keys.get? j = some k) :
    RoundRobinSignerProvider.Next ⟨keys, j⟩ =
      .ok (some k, ⟨keys, ((j + 1) % 4294967296) % m2⟩) := by
  simp only [RoundRobinSignerProvider.Next]
  rw [if_neg h0, hm, if_neg hm0, hk]

/-- Method `Next` on a non-empty rotator whose length is a multiple of 2^32:
the Go code divides by `uint32(len) = 0` and panics. -/
theorem next_eq_error_of_mod {K : Type} (keys : List K) (j : Nat)
    (h0 : ¬(keys.length = 0)) (hm : keys.length % 4294967296 = 0) :
    RoundRobinSignerProvider.Next ⟨keys, j⟩ = .error RotErr.divByZero := by
  simp only [RoundRobinSignerProvider.Next]
  rw [if_neg h0, if_pos hm]

/-- C6 counterexample: with `N = 2^32 + 1` keys `0, 1, 1, …, 1`, the Go
code computes the modulus over `uint32(len) = 1`, so the second call
(`i = 1`) returns key 0 again, while the claim demands the key at
position `1 % N = 1`, which is 1. -/
theorem roundRobin_next_cyclic_cex :
    ¬(ithNext (NewRoundRobinSignerProvider
        ((0 : Nat) :: 1 :: List.replicate 4294967295 1)) 1 =
      .ok (((0 : Nat) :: 1 :: List.replicate 4294967295 1).get?
        (1 % ((0 : Nat) :: 1 :: List.replicate 4294967295 1).length))) := by
  have hlen : ((0 : Nat) :: 1 :: List.replicate 4294967295 1).length = 4294967297 := by
    rw [List.length_cons, List.length_cons, List.length_replicate]
  have hnext := next_eq_of_get ((0 : Nat) :: 1 :: List.replicate 4294967295 1) 0 1 0
    (by rw [hlen]; decide) (by rw [hlen]) (by decide) rfl
  rw [show ((0 + 1) % 4294967296) % 1 = 0 from by norm_num] at hnext
  have e1 : iterState (⟨(0 : Nat) :: 1 :: List.replicate 4294967295 1, 0⟩ :
      RoundRobinSignerProvider Nat) 1 =
      .ok ⟨(0 : Nat) :: 1 :: List.replicate 4294967295 1, 0⟩ := by
    have h01 : iterState (⟨(0 : Nat) :: 1 :: List.replicate 4294967295 1, 0⟩ :
        RoundRobinSignerProvider Nat) 1 =
        (iterState (⟨(0 : Nat) :: 1 :: List.replicate 4294967295 1, 0⟩ :
          RoundRobinSignerProvider Nat) 0).bind fun q => q.Next.map Prod.snd :=
      iterState_succ _ 0
    rw [h01, iterState_zero, bind_next_snd, hnext, except_map_ok]
  have hL : ithNext (NewRoundRobinSignerProvider
      ((0 : Nat) :: 1 :: List.replicate 4294967295 1)) 1 = .ok (some 0) := by
    rw [new_def, ithNext_def, e1, bind_next_fst, hnext, except_map_ok]
  intro heq
  rw [hL, hlen, show (1 : Nat) % 4294967297 = 1 from by norm_num] at heq
  rw [show ((0 : Nat) :: 1 :: List.replicate 4294967295 1).get? 1 = some 1 from rfl] at heq
  have h0 := Except.ok.inj heq
  have h1 := Option.some.inj h0
  exact absurd h1 (by decide)

/-- A successful `Next` call keeps the key list and preserves the cursor
invariant. -/
theorem next_preserves {K : Type} (p : RoundRobinSignerProvider K)
    (x : Option K × RoundRobinSignerProvider K)
    (hn : p.Next = .ok x) (hInv : cursorInvariant p) :
    x.2.signers = p.signers ∧ cursorInvariant x.2 := by
  simp only [RoundRobinSignerProvider.Next] at hn
  by_cases h0 : p.signers.length = 0
  · rw [if_pos h0] at hn
    cases hn
    exact ⟨rfl, hInv⟩
  · rw [if_neg h0] at hn
    by_cases hm0 : p.signers.length % 4294967296 = 0
    · rw [if_pos hm0] at hn
      exact Except.noConfusion hn
    · rw [if_neg hm0] at hn
      cases hk : p.signers.get? p.index with
      | none =>
          rw [hk] at hn
          exact Except.noConfusion hn
      | some k =>
          rw [hk] at hn
          cases hn
          refine ⟨rfl, Or.inl ?_⟩
          have hlt := Nat.mod_lt ((p.index + 1) % 4294967296) (Nat.pos_of_ne_zero hm0)
          have hle := Nat.mod_le p.signers.length 4294967296
          dsimp only
          omega

/-- The cursor invariant holds along every completed run, and the key
count grows by exactly the number of `Add` operations. -/
theorem runOps_inv_aux {K : Type} :
    ∀ (ops : List (RotOp K)) (p q : RoundRobinSignerProvider K),
      runOps p ops = .ok q → cursorInvariant p →
      cursorInvariant q ∧ q.signers.length = p.signers.length + countAdds ops := by
  intro ops
  induction ops with
  | nil =>
      intro p q h hInv
      simp only [runOps] at h
      cases h
      exact ⟨hInv, by simp [countAdds]⟩
  | cons op rest ih =>
      intro p q h hInv
      cases op with
      | add k =>
          simp only [runOps] at h
          have hInv2 : cursorInvariant (p.Add k) := by
            unfold cursorInvariant at hInv ⊢
            dsimp only [RoundRobinSignerProvider.Add]
            simp only [List.length_append, List.length_cons, List.length_nil]
            rcases hInv with hlt | ⟨hz, hi⟩
            · left; omega
            · left; omega
          obtain ⟨hq, hlen⟩ := ih _ _ h hInv2
          refine ⟨hq, ?_⟩
          rw [hlen]
          simp only [RoundRobinSignerProvider.Add, List.length_append, List.length_cons,
            List.length_nil, countAdds]
          omega
      | next =>
          simp only [runOps] at h
          cases hn : p.Next with
          | error e =>
              rw [hn] at h
              exact Except.noConfusion h
          | ok x =>
              rw [hn] at h
              dsimp only [Except.bind] at h
              obtain ⟨hkeep, hInv2⟩ := next_preserves p x hn hInv
              obtain ⟨hq, hlen⟩ := ih _ _ h hInv2
              refine ⟨hq, ?_⟩
              rw [hlen, hkeep]
              simp [countAdds]

/-- Under the cursor invariant, a `Next` call can only return a key that
is in the list, or the no-key signal on an empty rotator, or the
division-by-zero failure at a positive multiple of 2^32 — never an
out-of-range access. -/
theorem nextSafe_of_inv {K : Type} (q : RoundRobinSignerProvider K)
    (hInv : cursorInvariant q) : NextSafe q := by
  unfold NextSafe
  simp only [RoundRobinSignerProvider.Next]
  by_cases h0 : q.signers.length = 0
  · rw [if_pos h0]
    exact List.length_eq_zero.mp h0
  · rw [if_neg h0]
    by_cases hm0 : q.signers.length % 4294967296 = 0
    · rw [if_pos hm0]
      exact ⟨rfl, hm0, fun hnil => h0 (by simp [hnil])⟩
    · rw [if_neg hm0]
      have hidx : q.index < q.signers.length := by
        rcases hInv with hlt | ⟨hz, _⟩
        · exact hlt
        · omega
      cases hk : q.signers.get? q.index with
      | none =>
          exfalso
          have := List.get?_eq_none.mp hk
          omega
      | some k =>
          exact List.get?_mem hk

/-- C7 (amended): from any initial key list, every state reachable by a
completed sequence of `Next`/`Add` calls keeps its cursor strictly below
the key count whenever the count is non-zero; its count equals the
initial count plus the number of `Add`s in the sequence; and a further
`Next` call returns a key currently in the list or the no-key signal on
an empty rotator — never an out-of-range access — and can only crash
through the `uint32` division by zero when the count is a positive
multiple of 2^32 (the frozen claim's unconditional "never a crash" fails
there, see `rotator_reachable_safe_cex`). -/
theorem rotator_reachable_safe {K : Type} (keys : List K) (ops : List (RotOp K))
    (q : RoundRobinSignerProvider K)
    (h : runOps (NewRoundRobinSignerProvider keys) ops = .ok q) :
    (q.signers.length ≠ 0 → q.index < q.signers.length) ∧
    q.Count = keys.length + countAdds ops ∧
    NextSafe q := by
  have hInv0 : cursorInvariant (NewRoundRobinSignerProvider keys) := by
    unfold cursorInvariant NewRoundRobinSignerProvider
    by_cases hk : keys.length = 0
    · exact Or.inr ⟨hk, rfl⟩
    · exact Or.inl (by dsimp only; omega)
  obtain ⟨hq, hlen⟩ := runOps_inv_aux ops _ q h hInv0
  refine ⟨?_, hlen, nextSafe_of_inv q hq⟩
  intro hne
  rcases hq with hlt | ⟨hz, _⟩
  · exact hlt
  · omega

theorem rotator_reachable_safe_witness :
    ((⟨[5, 7], 1⟩ : RoundRobinSignerProvider Nat).signers.length ≠ 0 →
      (⟨[5, 7], 1⟩ : RoundRobinSignerProvider Nat).index <
        (⟨[5, 7], 1⟩ : RoundRobinSignerProvider Nat).signers.length) ∧
    (⟨[5, 7], 1⟩ : RoundRobinSignerProvider Nat).Count =
      [5].length + countAdds [RotOp.next, RotOp.add 7, RotOp.next] ∧
    NextSafe (⟨[5, 7], 1⟩ : RoundRobinSignerProvider Nat) :=
  rotator_reachable_safe [5] [RotOp.next, RotOp.add 7, RotOp.next] ⟨[5, 7], 1⟩ (by rfl)

/-- C7 counterexample: a rotator holding exactly 2^32 keys is a reachable
state (it is an initial state), yet `Next` crashes on it with the
division by zero produced by `% uint32(len)`, contradicting the frozen
claim's "never … a crash". -/
theorem rotator_reachable_safe_cex :
    runOps (NewRoundRobinSignerProvider (List.replicate 4294967296 (0 : Nat)))
      [RotOp.next] = .error RotErr.divByZero := by
  have hnext := next_eq_error_of_mod (List.replicate 4294967296 (0 : Nat)) 0
    (by rw [List.length_replicate]; decide)
    (by rw [List.length_replicate])
  rw [new_def]
  simp only [runOps]
  rw [hnext]
  rfl

/-! ## Lemmas on hexadecimal text -/

theorem hexDigit_not_upper (n : Nat) (h : n < 16) :
    hexDigitAscii n < 65 ∨ 90 < hexDigitAscii n := by
  unfold hexDigitAscii
  split
  · left; omega
  · right; omega

theorem natHexAsciiAux_not_upper :
    ∀ fuel n c, c ∈ natHexAsciiAux fuel n → c < 65 ∨ 90 < c := by
  intro fuel
  induction fuel with
  | zero =>
      intro n c hc
      simp [natHexAsciiAux] at hc
  | succ fuel ih =>
      intro n c hc
      rw [natHexAsciiAux] at hc
      by_cases h0 : n = 0
      · rw [if_pos h0] at hc
        simp at hc
      · rw [if_neg h0] at hc
        rcases List.mem_append.mp hc with h | h
        · exact ih _ _ h
        · have hce : c = hexDigitAscii (n % 16) := by simpa using h
          rw [hce]
          exact hexDigit_not_upper _ (Nat.mod_lt _ (by norm_num))

theorem natHexAscii_not_upper (n c : Nat) (hc : c ∈ natHexAscii n) :
    c < 65 ∨ 90 < c := by
  unfold natHexAscii at hc
  by_cases h0 : n = 0
  · rw [if_pos h0] at hc
    have : c = 48 := by simpa using hc
    omega
  · rw [if_neg h0] at hc
    exact natHexAsciiAux_not_upper _ _ _ hc

theorem noUppercase_hexQuantityValue (v : Int) :
    noUppercaseAscii (hexQuantityValue v) = true := by
  rw [noUppercaseAscii, List.all_eq_true]
  intro c hc
  simp only [decide_eq_true_eq]
  simp only [hexQuantityValue, List.mem_cons] at hc
  rcases hc with rfl | rfl | hc
  · omega
  · omega
  · unfold intHexAscii at hc
    split at hc
    · rcases List.mem_cons.mp hc with rfl | hc
      · omega
      · exact natHexAscii_not_upper _ _ hc
    · exact natHexAscii_not_upper _ _ hc

theorem noUppercase_hexBytesValue (bs : List Nat) :
    noUppercaseAscii (hexBytesValue bs) = true := by
  rw [noUppercaseAscii, List.all_eq_true]
  intro c hc
  simp only [decide_eq_true_eq]
  simp only [hexBytesValue, List.mem_cons] at hc
  rcases hc with rfl | rfl | hc
  · omega
  · omega
  · obtain ⟨b, _, hcb⟩ := List.mem_flatMap.mp hc
    rcases List.mem_cons.mp hcb with rfl | hcb2
    · exact hexDigit_not_upper _ (Nat.mod_lt _ (by norm_num))
    · have : c = hexDigitAscii (b % 16) := by simpa using hcb2
      rw [this]
      exact hexDigit_not_upper _ (Nat.mod_lt _ (by norm_num))

theorem natHexAsciiAux_head :
    ∀ fuel n, n ≤ fuel → ¬(n = 0) →
      ∃ c, (natHexAsciiAux fuel n).head? = some c ∧ ¬(c = 48) := by
  intro fuel
  induction fuel with
  | zero =>
      intro n h h0
      omega
  | succ fuel ih =>
      intro n h h0
      rw [natHexAsciiAux, if_neg h0]
      by_cases hq : n / 16 = 0
      · have hnil : natHexAsciiAux fuel (n / 16) = [] := by
          rw [hq]
          cases fuel <;> rfl
        rw [hnil, List.nil_append]
        refine ⟨hexDigitAscii (n % 16), rfl, ?_⟩
        have h16 : n < 16 := by omega
        rw [Nat.mod_eq_of_lt h16]
        unfold hexDigitAscii
        split <;> omega
      · obtain ⟨c, hc, hc48⟩ := ih (n / 16) (by omega) hq
        refine ⟨c, ?_, hc48⟩
        cases hxs : natHexAsciiAux fuel (n / 16) with
        | nil =>
            rw [hxs] at hc
            cases hc
        | cons a t =>
            rw [hxs] at hc
            simpa using hc

theorem noLeadingZero_hexQuantityValue (v : Int) :
    noLeadingZeroHex (hexQuantityValue v) = true := by
  unfold noLeadingZeroHex hexQuantityValue intHexAscii
  by_cases hneg : v < 0
  · rw [if_pos hneg]
    apply Bool.or_eq_true_iff.mpr
    right
    simp [List.getD]
  · rw [if_neg hneg]
    unfold natHexAscii
    by_cases hz : v.natAbs = 0
    · rw [if_pos hz]
      apply Bool.or_eq_true_iff.mpr
      left
      simp
    · rw [if_neg hz]
      obtain ⟨c, hc, hc48⟩ := natHexAsciiAux_head _ _ Nat.le.refl hz
      apply Bool.or_eq_true_iff.mpr
      right
      cases hxs : natHexAsciiAux v.natAbs v.natAbs with
      | nil =>
          rw [hxs] at hc
          cases hc
      | cons a t =>
          rw [hxs] at hc
          have hac : a = c := by simpa using hc
          simp [List.getD, hac, hc48]

theorem length_bytesToHexAscii (bs : List Nat) :
    (bytesToHexAscii bs).length = 2 * bs.length := by
  induction bs with
  | nil => rfl
  | cons b t ih =>
      simp only [bytesToHexAscii, List.flatMap_cons, List.length_append] at ih ⊢
      simp only [List.length_cons, List.length_nil, List.length_cons]
      omega

theorem length_even_hexBytesValue (bs : List Nat) :
    (hexBytesValue bs).length % 2 = 0 := by
  simp only [hexBytesValue, List.length_cons, length_bytesToHexAscii]
  omega

/-! ## Membership in the `ToBody` association list -/

theorem mem_condField {c : Prop} [Decidable c] {k : String} {v : List Nat}
    {kv : String × List Nat} (h : kv ∈ condField c k v) : kv = (k, v) := by
  unfold condField at h
  split at h
  · simpa using h
  · simp at h

theorem mem_optField {o : Option Int} {k : String} {kv : String × List Nat}
    (h : kv ∈ optField o k) : ∃ n, o = some n ∧ kv = (k, hexQuantityValue n) := by
  cases o with
  | none => simp [optField] at h
  | some n =>
      refine ⟨n, rfl, ?_⟩
      simpa [optField] using h

/-- C9 (amended): every value in the body produced by `ToBody` is
`"0x"`-prefixed; every non-address value (every key except `sender`,
`paymaster` and `factory`) is entirely lower-case; big-integer values
carry no leading zero digit (minimal hex), and byte-string values have
whole-byte (even) length.  The address values use EIP-55 mixed-case
checksumming and so may contain upper-case letters, contradicting the
frozen claim's "entirely lower-case — including the sender, paymaster,
and factory address fields" (see `toBody_lowercase_cex`). -/
theorem toBody_values_shape (u : UserOperation) (kv : String × List Nat)
    (h : kv ∈ ToBody u) :
    kv.2.take 2 = [48, 120] ∧
    (¬(kv.1 = "sender") → ¬(kv.1 = "paymaster") → ¬(kv.1 = "factory") →
      noUppercaseAscii kv.2 = true) ∧
    ((kv.1 = "nonce" ∨ kv.1 = "callGasLimit" ∨ kv.1 = "verificationGasLimit" ∨
      kv.1 = "preVerificationGas" ∨ kv.1 = "maxFeePerGas" ∨
      kv.1 = "maxPriorityFeePerGas" ∨ kv.1 = "paymasterVerificationGasLimit" ∨
      kv.1 = "paymasterPostOpGasLimit") → noLeadingZeroHex kv.2 = true) ∧
    ((kv.1 = "callData" ∨ kv.1 = "signature" ∨ kv.1 = "paymasterData" ∨
      kv.1 = "factoryData") → kv.2.length % 2 = 0) := by
  unfold ToBody at h
  simp only [List.mem_append] at h
  rcases h with ((((((((((((((h | h) | h) | h) | h) | h) | h) | h) | h) | h) | h) | h) | h) | h) | h)
  · rw [mem_condField h]
    dsimp only
    exact ⟨rfl, fun hx _ _ => absurd rfl hx,
      fun hx => absurd hx (by decide), fun hx => absurd hx (by decide)⟩
  · obtain ⟨n, _, rfl⟩ := mem_optField h
    dsimp only
    exact ⟨rfl, fun _ _ _ => noUppercase_hexQuantityValue n,
      fun _ => noLeadingZero_hexQuantityValue n, fun hx => absurd hx (by decide)⟩
  · rw [mem_condField h]
    dsimp only
    exact ⟨rfl, fun _ _ _ => noUppercase_hexBytesValue _,
      fun hx => absurd hx (by decide), fun _ => length_even_hexBytesValue _⟩
  · obtain ⟨n, _, rfl⟩ := mem_optField h
    dsimp only
    exact ⟨rfl, fun _ _ _ => noUppercase_hexQuantityValue n,
      fun _ => noLeadingZero_hexQuantityValue n, fun hx => absurd hx (by decide)⟩
  · obtain ⟨n, _, rfl⟩ := mem_optField h
    dsimp only
    exact ⟨rfl, fun _ _ _ => noUppercase_hexQuantityValue n,
      fun _ => noLeadingZero_hexQuantityValue n, fun hx => absurd hx (by decide)⟩
  · obtain ⟨n, _, rfl⟩ := mem_optField h
    dsimp only
    exact ⟨rfl, fun _ _ _ => noUppercase_hexQuantityValue n,
      fun _ => noLeadingZero_hexQuantityValue n, fun hx => absurd hx (by decide)⟩
  · obtain ⟨n, _, rfl⟩ := mem_optField h
    dsimp only
    exact ⟨rfl, fun _ _ _ => noUppercase_hexQuantityValue n,
      fun _ => noLeadingZero_hexQuantityValue n, fun hx => absurd hx (by decide)⟩
  · obtain ⟨n, _, rfl⟩ := mem_optField h
    dsimp only
    exact ⟨rfl, fun _ _ _ => noUppercase_hexQuantityValue n,
      fun _ => noLeadingZero_hexQuantityValue n, fun hx => absurd hx (by decide)⟩
  · rw [mem_condField h]
    dsimp only
    exact ⟨rfl, fun _ _ _ => noUppercase_hexBytesValue _,
      fun hx => absurd hx (by decide), fun _ => length_even_hexBytesValue _⟩
  · rw [mem_condField h]
    dsimp only
    exact ⟨rfl, fun _ hx _ => absurd rfl hx,
      fun hx => absurd hx (by decide), fun hx => absurd hx (by decide)⟩
  · rw [mem_condField h]
    dsimp only
    exact ⟨rfl, fun _ _ _ => noUppercase_hexBytesValue _,
      fun hx => absurd hx (by decide), fun _ => length_even_hexBytesValue _⟩
  · obtain ⟨n, _, rfl⟩ := mem_optField h
    dsimp only
    exact ⟨rfl, fun _ _ _ => noUppercase_hexQuantityValue n,
      fun _ => noLeadingZero_hexQuantityValue n, fun hx => absurd hx (by decide)⟩
  · obtain ⟨n, _, rfl⟩ := mem_optField h
    dsimp only
    exact ⟨rfl, fun _ _ _ => noUppercase_hexQuantityValue n,
      fun _ => noLeadingZero_hexQuantityValue n, fun hx => absurd hx (by decide)⟩
  · rw [mem_condField h]
    dsimp only
    exact ⟨rfl, fun _ _ hx => absurd rfl hx,
      fun hx => absurd hx (by decide), fun hx => absurd hx (by decide)⟩
  · rw [mem_condField h]
    dsimp only
    exact ⟨rfl, fun _ _ _ => noUppercase_hexBytesValue _,
      fun hx => absurd hx (by decide), fun _ => length_even_hexBytesValue _⟩

theorem toBody_values_shape_witness :
    ("nonce", hexQuantityValue 26).2.take 2 = [48, 120] ∧
    (¬(("nonce", hexQuantityValue 26).1 = "sender") →
      ¬(("nonce", hexQuantityValue 26).1 = "paymaster") →
      ¬(("nonce", hexQuantityValue 26).1 = "factory") →
      noUppercaseAscii ("nonce", hexQuantityValue 26).2 = true) ∧
    ((("nonce", hexQuantityValue 26).1 = "nonce" ∨
      ("nonce", hexQuantityValue 26).1 = "callGasLimit" ∨
      ("nonce", hexQuantityValue 26).1 = "verificationGasLimit" ∨
      ("nonce", hexQuantityValue 26).1 = "preVerificationGas" ∨
      ("nonce", hexQuantityValue 26).1 = "maxFeePerGas" ∨
      ("nonce", hexQuantityValue 26).1 = "maxPriorityFeePerGas" ∨
      ("nonce", hexQuantityValue 26).1 = "paymasterVerificationGasLimit" ∨
      ("nonce", hexQuantityValue 26).1 = "paymasterPostOpGasLimit") →
      noLeadingZeroHex ("nonce", hexQuantityValue 26).2 = true) ∧
    ((("nonce", hexQuantityValue 26).1 = "callData" ∨
      ("nonce", hexQuantityValue 26).1 = "signature" ∨
      ("nonce", hexQuantityValue 26).1 = "paymasterData" ∨
      ("nonce", hexQuantityValue 26).1 = "factoryData") →
      ("nonce", hexQuantityValue 26).2.length % 2 = 0) :=
  toBody_values_shape { Nonce := some 26 } ("nonce", hexQuantityValue 26)
    (by set_option maxRecDepth 10000 in decide)

set_option maxRecDepth 100000 in
set_option maxHeartbeats 4000000 in
/-- C9 counterexample: for a user operation whose sender address is
`0xaaaa…aa`, the body's single entry is the EIP-55 checksummed sender
string, which contains upper-case `'A'` (ASCII 65) characters — so not
every hexadecimal text value emitted by `ToBody` is entirely lower-case. -/
theorem toBody_lowercase_cex :
    ToBody { Sender := List.replicate 20 170 } =
      [("sender",
        [48, 120, 97, 65, 97, 65, 97, 65, 97, 97, 65, 97, 65, 97, 65, 97, 97, 65,
         97, 65, 65, 65, 65, 65, 65, 65, 65, 97, 97, 97, 65, 97, 65, 97, 65, 97,
         97, 65, 97, 97, 65, 97])] ∧
    noUppercaseAscii
      [48, 120, 97, 65, 97, 65, 97, 65, 97, 97, 65, 97, 65, 97, 65, 97, 97, 65,
       97, 65, 65, 65, 65, 65, 65, 65, 65, 97, 97, 97, 65, 97, 65, 97, 65, 97,
       97, 65, 97, 97, 65, 97] = false := by
  constructor
  · decide
  · decide

end AASdk
